import Mathlib

/-!
Formal model of the hierarchical region-merging core in
src/src/clustering.cpp (class Clustering).

Modelling conventions:
* C++ float values are modelled as exact rationals.  Every quantity the
  program stores is a finite float, hence a rational; computations whose
  real value is irrational (square roots inside Eigen's .norm()) are
  modelled by an explicit square-root parameter sq : Rat -> Rat, because no
  verified claim depends on the numeric value of the square root, only on
  the algebraic shape of the expressions it appears in.
* External collaborators that are not part of src/ (ColorUtilities, the
  PCL linear-algebra routines, the GMM/GMR node) are modelled from the
  spec as explicit parameters bundled in the structures ColorExt / Extern.
* std::map / std::multimap are modelled as (sorted) association lists;
  std::multimap insertion with equal keys places the new element after the
  existing ones (upper bound), which insW reproduces.
* A separate small model (the fDiv/fMul/... operations on Option Rat)
  tracks IEEE-754 finiteness: none stands for a non-finite float (NaN or
  infinity).  It is used only for the claims about numerical degeneracy.
-/

/-- A 3-vector of rationals, modelling pcl points and Eigen::Vector3f. -/
@[ext]
structure V3 where
  x : ℚ
  y : ℚ
  z : ℚ
deriving DecidableEq

/-- An RGB color triple, modelling the float arrays used by ColorUtilities. -/
structure RGB where
  r : ℚ
  g : ℚ
  b : ℚ
deriving DecidableEq

/-- A surface normal with curvature, modelling pcl::Normal. -/
structure Nrm where
  vec : V3
  curvature : ℚ
deriving DecidableEq

/-- A colored 3D point, modelling PointT (pcl::PointXYZRGB). -/
structure Voxel where
  pos : V3
  color : RGB
deriving DecidableEq

/-- A friction sample attached to a position, modelling pcl::PointXYZI
points of the frictions cloud (intensity = friction value). -/
structure FrictionSample where
  pos : V3
  intensity : ℚ
deriving DecidableEq

/-- A region record, modelling the Supervoxel class of this repository.
The GMM feature fields mean and covariance are omitted: merge never
updates them (compute_statistics is commented out in the source) and no
verified claim mentions them. -/
structure Supervoxel where
  voxels : List Voxel
  normals : List Nrm
  centroid : V3
  normal : Nrm
  frictions : List FrictionSample
  friction : ℚ
  friction_variance : ℚ
deriving DecidableEq

instance : Inhabited Supervoxel :=
  ⟨{ voxels := [], normals := [], centroid := ⟨0, 0, 0⟩,
     normal := ⟨⟨0, 0, 0⟩, 0⟩, frictions := [], friction := 0,
     friction_variance := 0 }⟩

/-- The color distance selector (clustering.h enum). -/
inductive ColorDistance
  | LAB_CIEDE00
  | RGB_EUCL
deriving DecidableEq

/-- The geometric distance selector (clustering.h enum). -/
inductive GeometricDistance
  | NORMALS_DIFF
  | CONVEX_NORMALS_DIFF
deriving DecidableEq

/-- The haptic distance selector (clustering.h enum). -/
inductive HapticDistance
  | AVERAGE_FRICTION
deriving DecidableEq

/-- The merging criterion selector (clustering.h enum). -/
inductive MergingCriterion
  | MANUAL_LAMBDA
  | ADAPTIVE_LAMBDA
  | EQUALIZATION
deriving DecidableEq

/-- Modelled from the spec: the external color utility (ColorUtilities is
not under src/).  rgb2lab converts a mean RGB to CIE Lab, lab_ciede00 is
the CIEDE2000 color-difference metric, rgb_eucl the Euclidean RGB
distance, lab_range and rgb_range the fixed normalizers.  They are kept
as parameters; the claims below depend only on their symmetry, which is
hypothesised where needed and holds for the real CIEDE2000 and Euclidean
distances. -/
structure ColorExt where
  rgb2lab : RGB → V3
  lab_ciede00 : V3 → V3 → ℚ
  rgb_eucl : RGB → RGB → ℚ
  lab_range : ℚ
  rgb_range : ℚ

/-- Modelled from the spec: the bundle of external routines the engine
calls.  sq is the square root used inside Eigen's .norm(); fitNormal is
the PCL plane-fit pipeline of merge (computePointNormal followed by
flipNormalTowardsViewpoint toward the origin and renormalization), taking
the concatenated voxels and the new centroid and returning the new unit
normal and curvature.  No verified claim constrains their values. -/
structure Extern where
  sq : ℚ → ℚ
  color : ColorExt
  fitNormal : List Voxel → V3 → V3 × ℚ

/-- Componentwise difference of two 3-vectors. -/
def sub3 (a b : V3) : V3 := ⟨a.x - b.x, a.y - b.y, a.z - b.z⟩

/-- Componentwise negation of a 3-vector. -/
def neg3 (a : V3) : V3 := ⟨-a.x, -a.y, -a.z⟩

/-- Scaling of a 3-vector. -/
def scale3 (k : ℚ) (a : V3) : V3 := ⟨k * a.x, k * a.y, k * a.z⟩

/-- Dot product of two 3-vectors. -/
def dot3 (a b : V3) : ℚ := a.x * b.x + a.y * b.y + a.z * b.z

/-- Cross product of two 3-vectors. -/
def cross3 (a b : V3) : V3 :=
  ⟨a.y * b.z - a.z * b.y, a.z * b.x - a.x * b.z, a.x * b.y - a.y * b.x⟩

/-- Squared Euclidean norm. -/
def sumsq (a : V3) : ℚ := dot3 a a

/-- Eigen .norm() : the square root of the squared norm, with the square
root given by the external parameter sq. -/
def norm3 (sq : ℚ → ℚ) (a : V3) : ℚ := sq (sumsq a)

/-- Model of Clustering::is_convex (clustering.cpp lines 57-71): form
C = C1 - C2, normalize it by its norm, and compare the two cosines
N1 . C >= N2 . C.  In this exact model division by a zero norm yields the
zero vector (the IEEE behaviour is tracked separately by is_convexF). -/
def Clustering.is_convex (sq : ℚ → ℚ) (n1 : V3) (c1 : V3) (n2 : V3)
    (c2 : V3) : Bool :=
  let C0 := sub3 c1 c2
  let C := scale3 (1 / norm3 sq C0) C0
  let cos1 := dot3 n1 C
  let cos2 := dot3 n2 C
  decide (cos2 ≤ cos1)

/-- Model of Clustering::normals_diff (clustering.cpp lines 83-100):
delta_g = (norm (N1 x N2) + abs (N1 . C) + abs (N2 . C)) / 3 with C the
normalized centroid difference. -/
def Clustering.normals_diff (sq : ℚ → ℚ) (n1 : V3) (c1 : V3) (n2 : V3)
    (c2 : V3) : ℚ :=
  let C0 := sub3 c1 c2
  let C := scale3 (1 / norm3 sq C0) C0
  let N1xN2 := norm3 sq (cross3 n1 n2)
  let N1C := abs (dot3 n1 C)
  let N2C := abs (dot3 n2 C)
  (N1xN2 + N1C + N2C) / 3

/-- Modelled from the spec: ColorUtilities::mean_color, the componentwise
arithmetic mean of the colors of the points of a region. -/
def mean_color (s : Supervoxel) : RGB :=
  ⟨((s.voxels.map fun v => v.color.r).sum) / s.voxels.length,
   ((s.voxels.map fun v => v.color.g).sum) / s.voxels.length,
   ((s.voxels.map fun v => v.color.b).sum) / s.voxels.length⟩

/-- A weighted edge of the clustering graph: a weight paired with the two
region identifiers, modelling WeightedPairT. -/
abbrev WEdge := ℚ × ℕ × ℕ

/-- The live clustering state: the region table (std::map from label to
Supervoxel, modelled as an association list sorted as the map iterates)
and the weighted graph (std::multimap from weight to edge, modelled as a
list sorted by weight). -/
structure CState where
  segments : List (ℕ × Supervoxel)
  weight_map : List WEdge
deriving DecidableEq

/-- Model of the Clustering class state: the four selectors, the merging
parameters, the three equalization CDFs (std::map from bin to value,
modelled as association lists), the two lifecycle flags, and the two
states.  lambda_g is never initialized by the constructors in the source
(set_merging no longer assigns it); the model carries it as an ordinary
field and no verified claim depends on its initial value. -/
structure Clustering where
  delta_c_type : ColorDistance
  delta_g_type : GeometricDistance
  delta_h_type : HapticDistance
  merging_type : MergingCriterion
  lambda_c : ℚ
  lambda_g : ℚ
  bins_num : ℤ
  cdf_c : List (ℤ × ℚ)
  cdf_g : List (ℤ × ℚ)
  cdf_h : List (ℤ × ℚ)
  set_initial_state : Bool
  init_initial_weights : Bool
  initial_state : CState
  state : CState
deriving DecidableEq

/-- Model of Clustering::delta_c_g_h (clustering.cpp lines 156-199): the
triple (delta_c, delta_g, delta_h) for two regions, dispatching on the
three configured distance types. -/
def Clustering.delta_c_g_h (X : Extern) (c : Clustering)
    (supvox1 supvox2 : Supervoxel) : ℚ × ℚ × ℚ :=
  let rgb1 := mean_color supvox1
  let rgb2 := mean_color supvox2
  let delta_c :=
    match c.delta_c_type with
    | ColorDistance.LAB_CIEDE00 =>
        X.color.lab_ciede00 (X.color.rgb2lab rgb1) (X.color.rgb2lab rgb2) /
          X.color.lab_range
    | ColorDistance.RGB_EUCL =>
        X.color.rgb_eucl rgb1 rgb2 / X.color.rgb_range
  let n1 := supvox1.normal
  let n2 := supvox2.normal
  let c1 := supvox1.centroid
  let c2 := supvox2.centroid
  let delta_g :=
    match c.delta_g_type with
    | GeometricDistance.NORMALS_DIFF =>
        Clustering.normals_diff X.sq n1.vec c1 n2.vec c2
    | GeometricDistance.CONVEX_NORMALS_DIFF =>
        let d := Clustering.normals_diff X.sq n1.vec c1 n2.vec c2
        if Clustering.is_convex X.sq n1.vec c1 n2.vec c2 then d * (1 / 2)
        else d
  let delta_h :=
    match c.delta_h_type with
    | HapticDistance.AVERAGE_FRICTION =>
        abs (supvox1.friction - supvox2.friction)
  (delta_c, delta_g, delta_h)

/-- Lookup of the value attached to a bin in a cdf map.  std::map::at
throws std::out_of_range on a missing key; the model totalizes the lookup
with 0 and no verified claim exercises the missing-key path. -/
def cdfAt (cdf : List (ℤ × ℚ)) (bin : ℤ) : ℚ :=
  match cdf with
  | [] => 0
  | e :: rest => if e.1 = bin then e.2 else cdfAt rest bin

/-- Model of Clustering::t_c (clustering.cpp lines 558-580): the color
transform of the chosen unification mode. -/
def Clustering.t_c (c : Clustering) (delta_c : ℚ) : ℚ :=
  match c.merging_type with
  | MergingCriterion.MANUAL_LAMBDA => c.lambda_c * delta_c
  | MergingCriterion.ADAPTIVE_LAMBDA => c.lambda_c * delta_c
  | MergingCriterion.EQUALIZATION =>
      let bin := Int.floor (delta_c * c.bins_num)
      let bin := if bin = c.bins_num then bin - 1 else bin
      cdfAt c.cdf_c bin / 3

/-- Model of Clustering::t_g (clustering.cpp lines 590-612): the
geometric transform of the chosen unification mode. -/
def Clustering.t_g (c : Clustering) (delta_g : ℚ) : ℚ :=
  match c.merging_type with
  | MergingCriterion.MANUAL_LAMBDA => c.lambda_g * delta_g
  | MergingCriterion.ADAPTIVE_LAMBDA => c.lambda_g * delta_g
  | MergingCriterion.EQUALIZATION =>
      let bin := Int.floor (delta_g * c.bins_num)
      let bin := if bin = c.bins_num then bin - 1 else bin
      cdfAt c.cdf_g bin / 3

/-- Model of Clustering::t_h (clustering.cpp lines 622-644): the haptic
transform of the chosen unification mode. -/
def Clustering.t_h (c : Clustering) (delta_h : ℚ) : ℚ :=
  match c.merging_type with
  | MergingCriterion.MANUAL_LAMBDA => (1 - c.lambda_c - c.lambda_g) * delta_h
  | MergingCriterion.ADAPTIVE_LAMBDA => (1 - c.lambda_c - c.lambda_g) * delta_h
  | MergingCriterion.EQUALIZATION =>
      let bin := Int.floor (delta_h * c.bins_num)
      let bin := if bin = c.bins_num then bin - 1 else bin
      cdfAt c.cdf_h bin / 3

/-- Model of Clustering::delta (clustering.cpp lines 209-218): the
unified distance t_c (delta_c) + t_g (delta_g) + t_h (delta_h). -/
def Clustering.delta (X : Extern) (c : Clustering)
    (supvox1 supvox2 : Supervoxel) : ℚ :=
  let deltas := c.delta_c_g_h X supvox1 supvox2
  c.t_c deltas.1 + c.t_g deltas.2.1 + c.t_h deltas.2.2

/-- Lookup in the region table (std::map::find / at by key). -/
def segLookup (l : List (ℕ × Supervoxel)) (k : ℕ) : Option Supervoxel :=
  match l with
  | [] => none
  | e :: rest => if e.1 = k then some e.2 else segLookup rest k

/-- Removal of a key from the region table (std::map::erase; the map
holds at most one entry per key). -/
def eraseKey (l : List (ℕ × Supervoxel)) (k : ℕ) : List (ℕ × Supervoxel) :=
  match l with
  | [] => []
  | e :: rest => if e.1 = k then eraseKey rest k else e :: eraseKey rest k

/-- Insertion into the region table (std::map::insert: ordered by key and
a no-op when the key is already present). -/
def insertA (l : List (ℕ × Supervoxel)) (k : ℕ) (s : Supervoxel) :
    List (ℕ × Supervoxel) :=
  match l with
  | [] => [(k, s)]
  | e :: rest =>
      if k < e.1 then (k, s) :: e :: rest
      else if k = e.1 then e :: rest
      else e :: insertA rest k s

/-- Insertion into the weighted graph (std::multimap::insert: ordered by
weight; an element with an equal weight goes after the existing ones). -/
def insW (l : List WEdge) (w : ℚ) (p : ℕ × ℕ) : List WEdge :=
  match l with
  | [] => [(w, p)]
  | e :: rest => if w < e.1 then (w, p) :: e :: rest else e :: insW rest w p

/-- Model of Clustering::contains (clustering.cpp lines 794-803): whether
the weight map holds an edge with exactly the endpoint pair (i1, i2). -/
def Clustering.contains (w : List WEdge) (i1 i2 : ℕ) : Bool :=
  w.any fun e => decide (e.2.1 = i1 ∧ e.2.2 = i2)

/-- One iteration of the graph-rewriting loop of Clustering::merge
(clustering.cpp lines 733-764): an edge incident on the surviving label u
is re-weighted and kept unless already present; an edge incident on the
retired label v is renamed to u (keeping the pair ordered), re-weighted
and deduplicated; any other edge is reinserted with its old weight. -/
def Clustering.mergeStep (dlt : ℕ → ℕ → ℚ) (u v : ℕ) (new_map : List WEdge)
    (e : WEdge) : List WEdge :=
  let a := e.2.1
  let b := e.2.2
  if a = u ∨ b = u then
    if Clustering.contains new_map a b then new_map
    else insW new_map (dlt a b) (a, b)
  else if a = v then
    if Clustering.contains new_map u b then new_map
    else insW new_map (dlt u b) (u, b)
  else if b = v then
    if a < u then
      if Clustering.contains new_map a u then new_map
      else insW new_map (dlt a u) (a, u)
    else
      if Clustering.contains new_map u a then new_map
      else insW new_map (dlt u a) (u, a)
  else insW new_map e.1 (a, b)

/-- Modelled from the spec: pcl computeCentroid, the arithmetic mean of
the positions of a list of points. -/
def centroidOf (vs : List Voxel) : V3 :=
  ⟨((vs.map fun p => p.pos.x).sum) / vs.length,
   ((vs.map fun p => p.pos.y).sum) / vs.length,
   ((vs.map fun p => p.pos.z).sum) / vs.length⟩

/-- The new region built by Clustering::merge (clustering.cpp lines
674-717): concatenated voxels, normals and frictions, recomputed centroid
(pcl computeCentroid), externally recomputed normal and curvature, and
the merged friction scalar: the size-weighted average of the two
frictions when the concatenated friction sequence is non-empty, the plain
average otherwise.  The friction variance is left at the default value of
a fresh Supervoxel, as in the source. -/
def Clustering.merged_supervoxel (X : Extern) (sup1 sup2 : Supervoxel) :
    Supervoxel :=
  let newVoxels := sup1.voxels ++ sup2.voxels
  let newNormals := sup1.normals ++ sup2.normals
  let newCentroid := centroidOf newVoxels
  let fit := X.fitNormal newVoxels newCentroid
  let newFrictions := sup1.frictions ++ sup2.frictions
  let newFriction : ℚ :=
    if newFrictions.length ≠ 0 then
      ((sup1.frictions.length : ℚ) * sup1.friction +
       (sup2.frictions.length : ℚ) * sup2.friction) /
        (newFrictions.length : ℚ)
    else (sup1.friction + sup2.friction) / 2
  { voxels := newVoxels, normals := newNormals, centroid := newCentroid,
    normal := ⟨fit.1, fit.2⟩, frictions := newFrictions,
    friction := newFriction, friction_variance := 0 }

/-- Model of Clustering::merge (clustering.cpp lines 671-766).  The two
regions are looked up (std::map::at; theorems assume the labels are
present, matching the exception-free runs of the source) and merged into
merged_supervoxel.  The new region is installed under the first label,
the second label is retired, and the weight map is rebuilt from all edges
but the first (the merged edge is the minimum and sits at the head),
re-weighting with delta evaluated on the updated region table. -/
def Clustering.merge (X : Extern) (c : Clustering) (supvox_ids : ℕ × ℕ) :
    Clustering :=
  let sup1 := (segLookup c.state.segments supvox_ids.1).getD default
  let sup2 := (segLookup c.state.segments supvox_ids.2).getD default
  let sup_new := Clustering.merged_supervoxel X sup1 sup2
  let segs :=
    insertA (eraseKey (eraseKey c.state.segments supvox_ids.1) supvox_ids.2)
      supvox_ids.1 sup_new
  let dlt : ℕ → ℕ → ℚ := fun i1 i2 =>
    c.delta X ((segLookup segs i1).getD default)
      ((segLookup segs i2).getD default)
  let new_map :=
    c.state.weight_map.tail.foldl
      (Clustering.mergeStep dlt supvox_ids.1 supvox_ids.2) []
  { c with state := { segments := segs, weight_map := new_map } }

/-- Model of Clustering::clear_adjacency (clustering.cpp lines 773-783):
erase every adjacency entry whose first label exceeds the second (the
strict lower triangle), keeping everything else, diagonal included. -/
def Clustering.clear_adjacency (adjacency : List (ℕ × ℕ)) : List (ℕ × ℕ) :=
  adjacency.filter fun p => decide (¬ (p.2 < p.1))

/-- Model of Clustering::adj2weight (clustering.cpp lines 249-262): every
adjacency entry becomes a weighted edge with the sentinel weight -1.
All weights are equal, so multimap insertion preserves the order. -/
def Clustering.adj2weight (adj : List (ℕ × ℕ)) : List WEdge :=
  adj.map fun p => ((-1 : ℚ), p)

/-- Model of Clustering::set_initialstate (ClusteringT overload,
clustering.cpp lines 932-939): clear the adjacency, build the sentinel
weight map, store the state twice and set the lifecycle flags. -/
def Clustering.set_initialstate (c : Clustering)
    (segm : List (ℕ × Supervoxel)) (adj : List (ℕ × ℕ)) : Clustering :=
  let adj2 := Clustering.clear_adjacency adj
  let init_state : CState :=
    { segments := segm, weight_map := Clustering.adj2weight adj2 }
  { c with initial_state := init_state, state := init_state,
           set_initial_state := true, init_initial_weights := false }

/-- Ascending insertion into a sorted list of rationals, modelling
std::multiset insertion (DeltasDistribT). -/
def insSorted (x : ℚ) : List ℚ → List ℚ
  | [] => [x]
  | y :: ys => if x < y then x :: y :: ys else y :: insSorted x ys

/-- The ascending multiset holding a collection of delta values
(std::multiset iterates in ascending order). -/
def multisetOf (l : List ℚ) : List ℚ :=
  l.foldl (fun acc x => insSorted x acc) []

/-- Model of Clustering::deltas_mean (clustering.cpp lines 812-825): the
running-mean fold over a distribution. -/
def Clustering.deltas_mean (deltas : List ℚ) : ℚ :=
  (deltas.foldl
    (fun (p : ℚ × ℚ) d => (p.1 + 1, p.2 + (1 / (p.1 + 1)) * (d - p.2)))
    (0, 0)).2

/-- The bin index of a delta value: floor (d * bins_num), decremented when
it equals bins_num (clustering.cpp lines 533-536 and the same pattern in
t_c, t_g, t_h). -/
def binOf (bins_num : ℤ) (d : ℚ) : ℤ :=
  let bin := Int.floor (d * bins_num)
  if bin = bins_num then bin - 1 else bin

/-- Model of Clustering::compute_cdf (clustering.cpp lines 523-548): bin
the distribution into bins_num uniform bins, then record for every bin
the normalized count of all bins up to it.  The histogram array is
modelled by counting, per bin, the values falling in it (the source
assumes every value bins into [0, bins_num)). -/
def Clustering.compute_cdf (bins_num : ℤ) (dist : List ℚ) : List (ℤ × ℚ) :=
  let n : ℚ := dist.length
  let cnt : ℤ → ℚ := fun j => ((dist.filter fun d => decide (binOf bins_num d = j)).length : ℚ)
  (List.range bins_num.toNat).map fun iN =>
    (Int.ofNat iN, (((List.range (iN + 1)).map fun jN => cnt (Int.ofNat jN)).sum) / n)

/-- Model of Clustering::init_merging_parameters (clustering.cpp lines
488-514): under MANUAL_LAMBDA nothing changes; under ADAPTIVE_LAMBDA
lambda_c becomes mean_h / (mean_c + mean_h) and lambda_g becomes 0; under
EQUALIZATION the three CDFs are computed. -/
def Clustering.init_merging_parameters (c : Clustering)
    (deltas_c deltas_g deltas_h : List ℚ) : Clustering :=
  match c.merging_type with
  | MergingCriterion.MANUAL_LAMBDA => c
  | MergingCriterion.ADAPTIVE_LAMBDA =>
      let mean_c := Clustering.deltas_mean deltas_c
      let mean_h := Clustering.deltas_mean deltas_h
      { c with lambda_c := mean_h / (mean_c + mean_h), lambda_g := 0 }
  | MergingCriterion.EQUALIZATION =>
      { c with cdf_c := Clustering.compute_cdf c.bins_num deltas_c,
               cdf_g := Clustering.compute_cdf c.bins_num deltas_g,
               cdf_h := Clustering.compute_cdf c.bins_num deltas_h }

/-- Model of Clustering::init_weights (clustering.cpp lines 439-479).
First pass: compute and cache the delta triple of every edge of the
initial weight map (the source keys the cache by the textual pair of ids,
which is in bijection with the pair itself) and collect the three
distributions in ascending multisets.  Then derive the mode parameters,
re-transform every cached triple, rebuild the weight map by multimap
insertion, store it in the initial state and set the flag. -/
def Clustering.init_weights (X : Extern) (c : Clustering) : Clustering :=
  let temp : List ((ℕ × ℕ) × (ℚ × ℚ × ℚ)) :=
    c.initial_state.weight_map.map fun e =>
      (e.2, c.delta_c_g_h X
        ((segLookup c.initial_state.segments e.2.1).getD default)
        ((segLookup c.initial_state.segments e.2.2).getD default))
  let deltas_c := multisetOf (temp.map fun t => t.2.1)
  let deltas_g := multisetOf (temp.map fun t => t.2.2.1)
  let deltas_h := multisetOf (temp.map fun t => t.2.2.2)
  let c2 := c.init_merging_parameters deltas_c deltas_g deltas_h
  let w_new : List WEdge :=
    temp.foldl
      (fun acc t =>
        insW acc (c2.t_c t.2.1 + c2.t_g t.2.2.1 + c2.t_h t.2.2.2) t.1) []
  { c2 with
      initial_state := { c2.initial_state with weight_map := w_new },
      init_initial_weights := true }

/-- The merging loop of Clustering::cluster (clustering.cpp lines
652-664), with the number of remaining iterations made explicit.  Every
merge removes the head edge and rebuilds the rest with at most one edge
per remaining edge, so the weight map shrinks strictly at every
iteration and a fuel equal to the initial map size never truncates the
loop. -/
def Clustering.cluster_loop (X : Extern) : ℕ → Clustering → ℚ → Clustering
  | 0, c, _ => c
  | fuel + 1, c, threshold =>
      match c.state.weight_map with
      | [] => c
      | next :: _ =>
          if next.1 < threshold then
            Clustering.cluster_loop X fuel (c.merge X next.2) threshold
          else c

/-- Model of Clustering::cluster (state overload, clustering.cpp lines
652-664): install the start state, then repeatedly extract the minimum
weight edge and merge it while the minimum is below the threshold. -/
def Clustering.cluster_from (X : Extern) (c : Clustering) (start : CState)
    (threshold : ℚ) : Clustering :=
  Clustering.cluster_loop X start.weight_map.length
    { c with state := start } threshold

/-- Model of Clustering::cluster (threshold overload, clustering.cpp
lines 1057-1067): calling it before an initial state is set throws a
logic error (and, the call being pure here, changes nothing); otherwise
the weights are initialized first when they are not yet, and the merging
loop runs from the initial state. -/
def Clustering.cluster_threshold (X : Extern) (c : Clustering)
    (threshold : ℚ) : Except String Clustering :=
  if c.set_initial_state = false then
    Except.error
      "Cannot call cluster before setting an initial state with set_initialstate"
  else
    let c1 := if c.init_initial_weights = false then c.init_weights X else c
    Except.ok (c1.cluster_from X c1.initial_state threshold)

/-- Model of Clustering::set_merging (clustering.cpp lines 862-869): set
the criterion and unconditionally reset lambda_c to 0.5 and bins_num to
500 and clear the weight-initialization flag (lambda_g is left alone; its
assignment is commented out in the source). -/
def Clustering.set_merging (c : Clustering) (m : MergingCriterion) :
    Clustering :=
  { c with merging_type := m, lambda_c := 1 / 2, bins_num := 500,
           init_initial_weights := false }

/-- Model of Clustering::set_lambda (clustering.cpp lines 876-886). -/
def Clustering.set_lambda (c : Clustering) (l : ℚ × ℚ) :
    Except String Clustering :=
  if c.merging_type ≠ MergingCriterion.MANUAL_LAMBDA then
    Except.error
      "Lambdas can be set only if the merging criterion is set to MANUAL_LAMBDA"
  else if l.1 < 0 ∨ 1 < l.1 ∨ l.2 < 0 ∨ 1 < l.2 ∨ 1 < l.1 + l.2 then
    Except.error "Argument lambda outside range"
  else
    Except.ok { c with lambda_c := l.1, lambda_g := l.2,
                       init_initial_weights := false }

/-- Model of Clustering::set_bins_num (clustering.cpp lines 893-901): a
logic error unless the criterion is EQUALIZATION, an argument error for a
negative argument (and only then: zero passes the check), otherwise the
bin count is stored and the weight-initialization flag cleared. -/
def Clustering.set_bins_num (c : Clustering) (b : ℤ) :
    Except String Clustering :=
  if c.merging_type ≠ MergingCriterion.EQUALIZATION then
    Except.error
      "Bins number can be set only if the merging criterion is set to EQUALIZATION"
  else if b < 0 then
    Except.error "Argument lower than 0"
  else
    Except.ok { c with bins_num := b, init_initial_weights := false }

/-- The GMR imputation step of Clustering::estimate_missing_frictions for
one region (clustering.cpp lines 409-425): a region whose friction is the
unmeasured sentinel 0 receives the predicted friction and predictive
variance, and when the stored friction is at least 1 the variance is
subtracted from it; any other region is left alone.  The prediction and
variance come from the external GMR node and are parameters here. -/
def Clustering.gmr_update (s : Supervoxel) (pred var : ℚ) : Supervoxel :=
  if s.friction = 0 then
    let s1 := { s with friction := pred, friction_variance := var }
    if 1 ≤ s1.friction then
      { s1 with friction := s1.friction - s1.friction_variance }
    else s1
  else s

/-- The default Clustering constructor (clustering.cpp lines 830-837):
LAB_CIEDE00, NORMALS_DIFF, AVERAGE_FRICTION, then set_merging
(ADAPTIVE_LAMBDA), with both lifecycle flags false and empty states.
lambda_g is uninitialized in the source and modelled as 0. -/
def Clustering.default_ctor : Clustering :=
  Clustering.set_merging
    { delta_c_type := ColorDistance.LAB_CIEDE00,
      delta_g_type := GeometricDistance.NORMALS_DIFF,
      delta_h_type := HapticDistance.AVERAGE_FRICTION,
      merging_type := MergingCriterion.ADAPTIVE_LAMBDA,
      lambda_c := 0, lambda_g := 0, bins_num := 0,
      cdf_c := [], cdf_g := [], cdf_h := [],
      set_initial_state := false, init_initial_weights := false,
      initial_state := { segments := [], weight_map := [] },
      state := { segments := [], weight_map := [] } }
    MergingCriterion.ADAPTIVE_LAMBDA

/-- IEEE-754 finiteness-tracking addition: none is a non-finite float
(NaN or an infinity); any arithmetic on one is non-finite in the code
paths modelled here. -/
def fAdd : Option ℚ → Option ℚ → Option ℚ
  | some a, some b => some (a + b)
  | _, _ => none

/-- IEEE-754 finiteness-tracking multiplication. -/
def fMul : Option ℚ → Option ℚ → Option ℚ
  | some a, some b => some (a * b)
  | _, _ => none

/-- IEEE-754 finiteness-tracking division: dividing by zero yields a
non-finite float (NaN when the numerator is also zero, an infinity
otherwise). -/
def fDiv : Option ℚ → Option ℚ → Option ℚ
  | some a, some b => if b = 0 then none else some (a / b)
  | _, _ => none

/-- IEEE-754 finiteness-tracking absolute value. -/
def fAbs : Option ℚ → Option ℚ
  | some a => some (abs a)
  | none => none

/-- IEEE-754 comparison: any comparison involving a non-finite NaN value
is false. -/
def fLe : Option ℚ → Option ℚ → Bool
  | some a, some b => decide (a ≤ b)
  | _, _ => false

/-- Finiteness-tracking model of Clustering::normals_diff (clustering.cpp
lines 83-100), operation by operation: the centroid difference is divided
componentwise by its norm, so a zero norm makes every component of the
unit direction non-finite and the contamination reaches the returned
delta_g through the two dot products. -/
def Clustering.normals_diffF (sq : ℚ → ℚ) (n1 : V3) (c1 : V3) (n2 : V3)
    (c2 : V3) : Option ℚ :=
  let D := sub3 c1 c2
  let s := norm3 sq D
  let Cx := fDiv (some D.x) (some s)
  let Cy := fDiv (some D.y) (some s)
  let Cz := fDiv (some D.z) (some s)
  let N1xN2 : Option ℚ := some (norm3 sq (cross3 n1 n2))
  let N1C := fAbs (fAdd (fAdd (fMul (some n1.x) Cx) (fMul (some n1.y) Cy))
    (fMul (some n1.z) Cz))
  let N2C := fAbs (fAdd (fAdd (fMul (some n2.x) Cx) (fMul (some n2.y) Cy))
    (fMul (some n2.z) Cz))
  fDiv (fAdd (fAdd N1xN2 N1C) N2C) (some 3)

/-- Finiteness-tracking model of Clustering::is_convex (clustering.cpp
lines 57-71): with a zero-norm centroid difference both cosines are NaN
and the IEEE comparison cos1 >= cos2 evaluates to false. -/
def Clustering.is_convexF (sq : ℚ → ℚ) (n1 : V3) (c1 : V3) (n2 : V3)
    (c2 : V3) : Bool :=
  let D := sub3 c1 c2
  let s := norm3 sq D
  let Cx := fDiv (some D.x) (some s)
  let Cy := fDiv (some D.y) (some s)
  let Cz := fDiv (some D.z) (some s)
  let cos1 := fAdd (fAdd (fMul (some n1.x) Cx) (fMul (some n1.y) Cy))
    (fMul (some n1.z) Cz)
  let cos2 := fAdd (fAdd (fMul (some n2.x) Cx) (fMul (some n2.y) Cy))
    (fMul (some n2.z) Cz)
  fLe cos2 cos1

/-- Finiteness-tracking model of the delta_g dispatch of
Clustering::delta_c_g_h (clustering.cpp lines 179-187). -/
def Clustering.delta_gF (sq : ℚ → ℚ) (gt : GeometricDistance) (n1 : V3)
    (c1 : V3) (n2 : V3) (c2 : V3) : Option ℚ :=
  match gt with
  | GeometricDistance.NORMALS_DIFF => Clustering.normals_diffF sq n1 c1 n2 c2
  | GeometricDistance.CONVEX_NORMALS_DIFF =>
      let d := Clustering.normals_diffF sq n1 c1 n2 c2
      if Clustering.is_convexF sq n1 c1 n2 c2 then fMul d (some (1 / 2))
      else d

/-- A concrete instantiation of the external routines, used to evaluate
the engine on concrete inputs: the square root placeholder is the
identity (no verified claim depends on its values), the color kernels are
simple symmetric functions, and the plane fit returns a fixed normal. -/
def X0 : Extern :=
  { sq := fun q => q,
    color :=
      { rgb2lab := fun cl => ⟨cl.r, cl.g, cl.b⟩,
        lab_ciede00 := fun a b => abs (a.x - b.x),
        rgb_eucl := fun a b => abs (a.r - b.r),
        lab_range := 100,
        rgb_range := 441 },
    fitNormal := fun _ _ => (⟨0, 0, 1⟩, 0) }

/-- A concrete region with one voxel at the origin and one friction
sample. -/
def svA : Supervoxel :=
  { voxels := [⟨⟨0, 0, 0⟩, ⟨10, 20, 30⟩⟩],
    normals := [⟨⟨0, 0, 1⟩, 0⟩],
    centroid := ⟨0, 0, 0⟩,
    normal := ⟨⟨0, 0, 1⟩, 0⟩,
    frictions := [⟨⟨0, 0, 0⟩, 1 / 2⟩],
    friction := 1 / 2,
    friction_variance := 0 }

/-- A concrete region with one voxel at (1,0,0) and no friction
samples. -/
def svB : Supervoxel :=
  { voxels := [⟨⟨1, 0, 0⟩, ⟨40, 50, 60⟩⟩],
    normals := [⟨⟨0, 0, 1⟩, 0⟩],
    centroid := ⟨1, 0, 0⟩,
    normal := ⟨⟨0, 0, 1⟩, 0⟩,
    frictions := [],
    friction := 3 / 10,
    friction_variance := 0 }

/-- A concrete untouched region (friction sentinel 0) with one voxel at
(2,0,0). -/
def svC : Supervoxel :=
  { voxels := [⟨⟨2, 0, 0⟩, ⟨5, 5, 5⟩⟩],
    normals := [⟨⟨0, 0, 1⟩, 0⟩],
    centroid := ⟨2, 0, 0⟩,
    normal := ⟨⟨0, 0, 1⟩, 0⟩,
    frictions := [],
    friction := 0,
    friction_variance := 0 }

/-- A concrete region whose normal points along +x from the origin. -/
def svD : Supervoxel :=
  { voxels := [⟨⟨0, 0, 0⟩, ⟨1, 2, 3⟩⟩],
    normals := [⟨⟨1, 0, 0⟩, 0⟩],
    centroid := ⟨0, 0, 0⟩,
    normal := ⟨⟨1, 0, 0⟩, 0⟩,
    frictions := [],
    friction := 1 / 4,
    friction_variance := 0 }

/-- A concrete region whose normal points along -x from (1,0,0); the pair
(svD, svE) fails the convexity test. -/
def svE : Supervoxel :=
  { voxels := [⟨⟨1, 0, 0⟩, ⟨4, 5, 6⟩⟩],
    normals := [⟨⟨-1, 0, 0⟩, 0⟩],
    centroid := ⟨1, 0, 0⟩,
    normal := ⟨⟨-1, 0, 0⟩, 0⟩,
    frictions := [],
    friction := 3 / 4,
    friction_variance := 0 }

/-- A concrete engine state holding three regions and two weighted edges,
the minimum-weight edge being (1,2). -/
def cW : Clustering :=
  { Clustering.default_ctor with
      state :=
        { segments := [(1, svA), (2, svB), (3, svC)],
          weight_map := [((0 : ℚ), (1, 2)), ((1 : ℚ), (2, 3))] } }

/-- A concrete configuration in EQUALIZATION mode. -/
def cEq : Clustering :=
  { Clustering.default_ctor with
      merging_type := MergingCriterion.EQUALIZATION }

/-- A concrete configuration whose initial state has been set but whose
weights are not initialized. -/
def cOk : Clustering :=
  { Clustering.default_ctor with set_initial_state := true }

theorem sub3_swap (a b : V3) : sub3 b a = neg3 (sub3 a b) := by
  apply V3.ext <;> simp only [sub3, neg3] <;> ring

theorem sumsq_neg3 (a : V3) : sumsq (neg3 a) = sumsq a := by
  simp only [sumsq, dot3, neg3]; ring

theorem norm3_neg3 (sq : ℚ → ℚ) (a : V3) : norm3 sq (neg3 a) = norm3 sq a := by
  simp only [norm3]; rw [sumsq_neg3]

theorem scale3_neg3 (k : ℚ) (a : V3) : scale3 k (neg3 a) = neg3 (scale3 k a) := by
  apply V3.ext <;> simp only [scale3, neg3] <;> ring

theorem dot3_neg3_right (a b : V3) : dot3 a (neg3 b) = -(dot3 a b) := by
  simp only [dot3, neg3]; ring

theorem cross3_swap (a b : V3) : cross3 b a = neg3 (cross3 a b) := by
  apply V3.ext <;> simp only [cross3, neg3] <;> ring

theorem normals_diff_swap (sq : ℚ → ℚ) (n1 c1 n2 c2 : V3) :
    Clustering.normals_diff sq n2 c2 n1 c1 =
      Clustering.normals_diff sq n1 c1 n2 c2 := by
  simp only [Clustering.normals_diff, sub3_swap c1 c2, norm3_neg3,
    scale3_neg3, dot3_neg3_right, cross3_swap n1 n2, abs_neg]
  ring

theorem is_convex_swap (sq : ℚ → ℚ) (n1 c1 n2 c2 : V3) :
    Clustering.is_convex sq n2 c2 n1 c1 =
      Clustering.is_convex sq n1 c1 n2 c2 := by
  simp only [Clustering.is_convex, sub3_swap c1 c2, norm3_neg3,
    scale3_neg3, dot3_neg3_right]
  exact decide_eq_decide.mpr neg_le_neg_iff

theorem delta_c_g_h_swap (X : Extern) (c : Clustering) (s1 s2 : Supervoxel)
    (hlab : ∀ a b, X.color.lab_ciede00 a b = X.color.lab_ciede00 b a)
    (hrgb : ∀ a b, X.color.rgb_eucl a b = X.color.rgb_eucl b a) :
    c.delta_c_g_h X s2 s1 = c.delta_c_g_h X s1 s2 := by
  unfold Clustering.delta_c_g_h
  cases c.delta_c_type <;> cases c.delta_g_type <;> cases c.delta_h_type <;>
    simp only [hlab (X.color.rgb2lab (mean_color s2))
        (X.color.rgb2lab (mean_color s1)),
      hrgb (mean_color s2) (mean_color s1), normals_diff_swap,
      is_convex_swap, abs_sub_comm s2.friction s1.friction]

theorem delta_swap_helper (X : Extern) (c : Clustering) (s1 s2 : Supervoxel)
    (hlab : ∀ a b, X.color.lab_ciede00 a b = X.color.lab_ciede00 b a)
    (hrgb : ∀ a b, X.color.rgb_eucl a b = X.color.rgb_eucl b a) :
    c.delta X s2 s1 = c.delta X s1 s2 := by
  unfold Clustering.delta
  rw [delta_c_g_h_swap X c s1 s2 hlab hrgb]

theorem segLookup_eraseKey_self (l : List (ℕ × Supervoxel)) (k : ℕ) :
    segLookup (eraseKey l k) k = none := by
  induction l with
  | nil => rfl
  | cons e rest ih =>
      simp only [eraseKey]
      split
      · exact ih
      · next h => simp only [segLookup, if_neg h]; exact ih

theorem segLookup_eraseKey_ne (l : List (ℕ × Supervoxel)) (k x : ℕ)
    (hxk : x ≠ k) : segLookup (eraseKey l k) x = segLookup l x := by
  induction l with
  | nil => rfl
  | cons e rest ih =>
      simp only [eraseKey]
      split
      · next h =>
          have hex : e.1 ≠ x := fun hc => hxk (hc.symm.trans h)
          simp only [segLookup, if_neg hex]
          exact ih
      · simp only [segLookup]
        split
        · rfl
        · exact ih

theorem segLookup_insertA_self (l : List (ℕ × Supervoxel)) (k : ℕ)
    (s : Supervoxel) (h : segLookup l k = none) :
    segLookup (insertA l k s) k = some s := by
  induction l with
  | nil => simp [insertA, segLookup]
  | cons e rest ih =>
      simp only [insertA]
      split
      · simp [segLookup]
      · split
        · next h1 h2 =>
            simp only [segLookup, if_pos h2.symm] at h
            exact Option.noConfusion h
        · next h1 h2 =>
            have hek : e.1 ≠ k := fun hc => h2 hc.symm
            simp only [segLookup, if_neg hek]
            simp only [segLookup, if_neg hek] at h
            exact ih h

theorem segLookup_insertA_ne (l : List (ℕ × Supervoxel)) (k x : ℕ)
    (s : Supervoxel) (hxk : x ≠ k) :
    segLookup (insertA l k s) x = segLookup l x := by
  induction l with
  | nil =>
      have hkx : ¬ k = x := fun hc => hxk hc.symm
      simp [insertA, segLookup, hkx]
  | cons e rest ih =>
      simp only [insertA]
      split
      · have hkx : ¬ k = x := fun hc => hxk hc.symm
        simp only [segLookup, if_neg hkx]
      · split
        · rfl
        · simp only [segLookup]
          split
          · rfl
          · exact ih

theorem mem_insW (l : List WEdge) (w : ℚ) (p : ℕ × ℕ) (e : WEdge)
    (h : e ∈ insW l w p) : e ∈ l ∨ e = (w, p) := by
  induction l with
  | nil =>
      simp only [insW, List.mem_singleton] at h
      exact Or.inr h
  | cons e0 rest ih =>
      simp only [insW] at h
      split at h
      · rcases List.mem_cons.mp h with h1 | h1
        · exact Or.inr h1
        · exact Or.inl h1
      · rcases List.mem_cons.mp h with h1 | h1
        · exact Or.inl (List.mem_cons.mpr (Or.inl h1))
        · rcases ih h1 with h2 | h2
          · exact Or.inl (List.mem_cons.mpr (Or.inr h2))
          · exact Or.inr h2

theorem mergeStep_endpoints (dlt : ℕ → ℕ → ℚ) (u v : ℕ)
    (Old Good : ℕ → Prop) (hGu : Good u)
    (hOld : ∀ x, Old x → x ≠ u → x ≠ v → Good x) (huv : u < v)
    (acc : List WEdge) (e : WEdge)
    (hacc : ∀ e0 ∈ acc, Good e0.2.1 ∧ Good e0.2.2)
    (hOa : Old e.2.1) (hOb : Old e.2.2) (hab : e.2.1 < e.2.2)
    (hne : e.2 ≠ (u, v)) :
    ∀ e1 ∈ Clustering.mergeStep dlt u v acc e, Good e1.2.1 ∧ Good e1.2.2 := by
  intro e1 h1
  simp only [Clustering.mergeStep] at h1
  by_cases hb1 : e.2.1 = u ∨ e.2.2 = u
  · rw [if_pos hb1] at h1
    split at h1
    · exact hacc e1 h1
    · rcases mem_insW _ _ _ _ h1 with h2 | h2
      · exact hacc e1 h2
      · subst h2
        rcases hb1 with h | h
        · refine ⟨h ▸ hGu, ?_⟩
          have hbu : e.2.2 ≠ u := by
            intro hc
            rw [h, hc] at hab
            exact lt_irrefl u hab
          have hbv : e.2.2 ≠ v := by
            intro hc
            apply hne
            rw [← h, ← hc]
          exact hOld _ hOb hbu hbv
        · refine ⟨?_, h ▸ hGu⟩
          have hau : e.2.1 ≠ u := by
            intro hc
            rw [hc, h] at hab
            exact lt_irrefl u hab
          have hav : e.2.1 ≠ v := by
            intro hc
            rw [hc, h] at hab
            exact absurd (hab.trans huv) (lt_irrefl v)
          exact hOld _ hOa hau hav
  · rw [if_neg hb1] at h1
    push_neg at hb1
    obtain ⟨hau, hbu⟩ := hb1
    split at h1
    · next hav =>
        split at h1
        · exact hacc e1 h1
        · rcases mem_insW _ _ _ _ h1 with h2 | h2
          · exact hacc e1 h2
          · subst h2
            refine ⟨hGu, ?_⟩
            have hbv : e.2.2 ≠ v := by
              intro hc
              rw [hav, hc] at hab
              exact lt_irrefl v hab
            exact hOld _ hOb hbu hbv
    · next hav =>
        split at h1
        · next hbv =>
            have hga : Good e.2.1 := hOld _ hOa hau hav
            split at h1
            · split at h1
              · exact hacc e1 h1
              · rcases mem_insW _ _ _ _ h1 with h2 | h2
                · exact hacc e1 h2
                · subst h2
                  exact ⟨hga, hGu⟩
            · split at h1
              · exact hacc e1 h1
              · rcases mem_insW _ _ _ _ h1 with h2 | h2
                · exact hacc e1 h2
                · subst h2
                  exact ⟨hGu, hga⟩
        · next hbv =>
            rcases mem_insW _ _ _ _ h1 with h2 | h2
            · exact hacc e1 h2
            · subst h2
              exact ⟨hOld _ hOa hau hav, hOld _ hOb hbu hbv⟩

theorem foldl_mergeStep_endpoints (dlt : ℕ → ℕ → ℚ) (u v : ℕ)
    (Old Good : ℕ → Prop) (hGu : Good u)
    (hOld : ∀ x, Old x → x ≠ u → x ≠ v → Good x) (huv : u < v)
    (l : List WEdge)
    (hl : ∀ e ∈ l, Old e.2.1 ∧ Old e.2.2 ∧ e.2.1 < e.2.2 ∧ e.2 ≠ (u, v))
    (acc : List WEdge) (hacc : ∀ e0 ∈ acc, Good e0.2.1 ∧ Good e0.2.2) :
    ∀ e1 ∈ List.foldl (Clustering.mergeStep dlt u v) acc l,
      Good e1.2.1 ∧ Good e1.2.2 := by
  induction l generalizing acc with
  | nil =>
      intro e1 h1
      exact hacc e1 h1
  | cons e rest ih =>
      intro e1 h1
      simp only [List.foldl_cons] at h1
      obtain ⟨hOa, hOb, hab, hne⟩ := hl e (List.mem_cons_self e rest)
      exact ih (fun e2 h2 => hl e2 (List.mem_cons_of_mem e h2))
        (Clustering.mergeStep dlt u v acc e)
        (mergeStep_endpoints dlt u v Old Good hGu hOld huv acc e hacc
          hOa hOb hab hne) e1 h1

theorem merge_segments_eq (X : Extern) (c : Clustering) (p : ℕ × ℕ) :
    (c.merge X p).state.segments =
      insertA (eraseKey (eraseKey c.state.segments p.1) p.2) p.1
        (Clustering.merged_supervoxel X
          ((segLookup c.state.segments p.1).getD default)
          ((segLookup c.state.segments p.2).getD default)) := rfl

theorem merge_weight_map_shape (X : Extern) (c : Clustering) (p : ℕ × ℕ) :
    ∃ dlt, (c.merge X p).state.weight_map =
      c.state.weight_map.tail.foldl
        (Clustering.mergeStep dlt p.1 p.2) [] :=
  ⟨_, rfl⟩

theorem merge_lookup_new (X : Extern) (c : Clustering) (u v : ℕ)
    (huv : u ≠ v) :
    segLookup (c.merge X (u, v)).state.segments u =
      some (Clustering.merged_supervoxel X
        ((segLookup c.state.segments u).getD default)
        ((segLookup c.state.segments v).getD default)) := by
  rw [merge_segments_eq]
  apply segLookup_insertA_self
  rw [segLookup_eraseKey_ne _ _ _ huv]
  exact segLookup_eraseKey_self c.state.segments u

theorem merge_lookup_other (X : Extern) (c : Clustering) (u v x : ℕ)
    (hxu : x ≠ u) (hxv : x ≠ v) :
    segLookup (c.merge X (u, v)).state.segments x =
      segLookup c.state.segments x := by
  rw [merge_segments_eq]
  rw [segLookup_insertA_ne _ _ _ _ hxu, segLookup_eraseKey_ne _ _ _ hxv,
    segLookup_eraseKey_ne _ _ _ hxu]

theorem centroidOf_append (l1 l2 : List Voxel) (h1 : l1.length ≠ 0)
    (h2 : l2.length ≠ 0) :
    centroidOf (l1 ++ l2) =
      ⟨((l1.length : ℚ) * (centroidOf l1).x +
          (l2.length : ℚ) * (centroidOf l2).x) /
         ((l1.length : ℚ) + (l2.length : ℚ)),
       ((l1.length : ℚ) * (centroidOf l1).y +
          (l2.length : ℚ) * (centroidOf l2).y) /
         ((l1.length : ℚ) + (l2.length : ℚ)),
       ((l1.length : ℚ) * (centroidOf l1).z +
          (l2.length : ℚ) * (centroidOf l2).z) /
         ((l1.length : ℚ) + (l2.length : ℚ))⟩ := by
  have h1q : (l1.length : ℚ) ≠ 0 := Nat.cast_ne_zero.mpr h1
  have h2q : (l2.length : ℚ) ≠ 0 := Nat.cast_ne_zero.mpr h2
  have h12 : (l1.length : ℚ) + (l2.length : ℚ) ≠ 0 := by positivity
  apply V3.ext <;>
    simp only [centroidOf, List.map_append, List.sum_append,
      List.length_append, Nat.cast_add] <;>
    field_simp

/-- C10: for every merging mode m and every prior configuration,
set_merging m unconditionally resets lambda_c to 0.5 and bins_num to 500
and marks the weights as uninitialized, so lambda_c and bin-count values
configured earlier are silently discarded and must be set again. -/
theorem C10_set_merging_resets (c : Clustering) (m : MergingCriterion) :
    (c.set_merging m).merging_type = m ∧
    (c.set_merging m).lambda_c = 1 / 2 ∧
    (c.set_merging m).bins_num = 500 ∧
    (c.set_merging m).init_initial_weights = false :=
  ⟨rfl, rfl, rfl, rfl⟩

/-- C9 counterexample: the claim says every argument that is not a
positive integer, such as 0, is rejected; but set_bins_num accepts 0 in
EQUALIZATION mode and stores it. -/
theorem C9_counterexample :
    cEq.set_bins_num 0 =
      Except.ok { cEq with bins_num := 0, init_initial_weights := false } := by
  rfl

/-- C9 (amended): set_bins_num raises a logic error whenever the merging
mode is not EQUALIZATION, raises an argument error exactly for negative
arguments (zero is accepted, unlike the claim states), and on success
stores the bin count and clears the weight-initialization flag. -/
theorem C9_set_bins_num_amended (c : Clustering) (b : ℤ) :
    (c.merging_type ≠ MergingCriterion.EQUALIZATION →
      ∃ msg, c.set_bins_num b = Except.error msg) ∧
    (c.merging_type = MergingCriterion.EQUALIZATION → b < 0 →
      ∃ msg, c.set_bins_num b = Except.error msg) ∧
    (c.merging_type = MergingCriterion.EQUALIZATION → 0 ≤ b →
      c.set_bins_num b =
        Except.ok { c with bins_num := b,
                           init_initial_weights := false }) := by
  refine ⟨?_, ?_, ?_⟩
  · intro h
    refine ⟨"Bins number can be set only if the merging criterion is set to EQUALIZATION", ?_⟩
    unfold Clustering.set_bins_num
    rw [if_pos h]
  · intro h hb
    refine ⟨"Argument lower than 0", ?_⟩
    unfold Clustering.set_bins_num
    rw [if_neg (fun hc => hc h), if_pos hb]
  · intro h hb
    unfold Clustering.set_bins_num
    rw [if_neg (fun hc => hc h), if_neg (not_lt.mpr hb)]

/-- C9 witness: the amended setter contract evaluated at concrete
configurations: success at bin count 7 in EQUALIZATION mode, a logic
error outside EQUALIZATION mode, and an argument error at -3. -/
theorem C9_set_bins_num_amended_witness :
    (cEq.merging_type = MergingCriterion.EQUALIZATION ∧ (0 : ℤ) ≤ 7 ∧
      cEq.set_bins_num 7 =
        Except.ok { cEq with bins_num := 7,
                             init_initial_weights := false }) ∧
    (Clustering.default_ctor.merging_type ≠ MergingCriterion.EQUALIZATION ∧
      ∃ msg, Clustering.default_ctor.set_bins_num 7 = Except.error msg) ∧
    (cEq.merging_type = MergingCriterion.EQUALIZATION ∧ (-3 : ℤ) < 0 ∧
      ∃ msg, cEq.set_bins_num (-3) = Except.error msg) :=
  ⟨⟨rfl, by decide,
    (C9_set_bins_num_amended cEq 7).2.2 rfl (by decide)⟩,
   ⟨by decide,
    (C9_set_bins_num_amended Clustering.default_ctor 7).1 (by decide)⟩,
   ⟨rfl, by decide,
    (C9_set_bins_num_amended cEq (-3)).2.1 rfl (by decide)⟩⟩

/-- C2 counterexample: the claim says every self-loop is absent from the
weighted graph after initialization; but with the self-loop (5,5) in the
input adjacency, set_initialstate keeps it (clear_adjacency only erases
pairs with first > second) and the weighted graph contains it. -/
theorem C2_counterexample :
    ((-1 : ℚ), ((5 : ℕ), (5 : ℕ))) ∈
      (Clustering.default_ctor.set_initialstate []
        [(5, 5), (2, 1)]).state.weight_map ∧
    ¬ (5 : ℕ) < 5 := by
  constructor <;> decide

/-- C2 (amended): after set_initialstate the weighted graph consists of
the input adjacency entries with first at most second, with sentinel
weight -1: every reverse-duplicate (v,u) with v > u is dropped, but
self-loops (u,u) are retained, contrary to the claim. -/
theorem C2_canonicalization_amended (c : Clustering)
    (segm : List (ℕ × Supervoxel)) (adj : List (ℕ × ℕ)) :
    (∀ e ∈ (c.set_initialstate segm adj).state.weight_map,
      e.2.1 ≤ e.2.2) ∧
    (∀ p ∈ adj, p.1 ≤ p.2 →
      ((-1 : ℚ), p) ∈ (c.set_initialstate segm adj).state.weight_map) := by
  constructor
  · intro e he
    simp only [Clustering.set_initialstate, Clustering.adj2weight,
      Clustering.clear_adjacency, List.mem_map, List.mem_filter] at he
    obtain ⟨p, ⟨hp1, hp2⟩, rfl⟩ := he
    have hnl : ¬ p.2 < p.1 := by simpa using hp2
    simpa using not_lt.mp hnl
  · intro p hp hle
    simp only [Clustering.set_initialstate, Clustering.adj2weight,
      Clustering.clear_adjacency, List.mem_map, List.mem_filter]
    exact ⟨p, ⟨hp, by simpa using not_lt.mpr hle⟩, rfl⟩

/-- C2 witness: the amended canonicalization applied to a concrete
adjacency: the ordered entry (1,2) of the input survives into the
weighted graph with sentinel weight -1. -/
theorem C2_canonicalization_amended_witness :
    ((1 : ℕ), (2 : ℕ)) ∈ [((1 : ℕ), (2 : ℕ)), (2, 1), (5, 5)] ∧
    (1 : ℕ) ≤ 2 ∧
    ((-1 : ℚ), ((1 : ℕ), (2 : ℕ))) ∈
      (Clustering.default_ctor.set_initialstate []
        [(1, 2), (2, 1), (5, 5)]).state.weight_map :=
  ⟨by decide, by decide,
   (C2_canonicalization_amended Clustering.default_ctor []
      [(1, 2), (2, 1), (5, 5)]).2 (1, 2) (by decide) (by decide)⟩

/-- C6 counterexample: the claim says the friction imputed for a region
entering with the sentinel 0 lies in [0,1] after the correction; but with
GMR prediction 3/2 and predictive variance 1/10 the stored friction is
7/5, above 1. -/
theorem C6_counterexample :
    (Clustering.gmr_update svC (3 / 2) (1 / 10)).friction = 7 / 5 ∧
    ¬ (Clustering.gmr_update svC (3 / 2) (1 / 10)).friction ≤ 1 := by
  have h : (Clustering.gmr_update svC (3 / 2) (1 / 10)).friction = 7 / 5 := by
    norm_num [Clustering.gmr_update, svC]
  refine ⟨h, ?_⟩
  rw [h]
  norm_num

/-- C6 (amended): for a region entering with the sentinel 0, the stored
friction lies in [0,1] only under additional assumptions on the GMR
output: a nonnegative prediction that is either below 1 (stored
unchanged) or at least 1 with the predictive variance between prediction
minus one and the prediction; in general the correction does not confine
the value to [0,1]. -/
theorem C6_gmr_range_amended (s : Supervoxel) (pred var : ℚ)
    (hs : s.friction = 0) (hp : 0 ≤ pred)
    (hcase : pred < 1 ∨ (pred - 1 ≤ var ∧ var ≤ pred)) :
    0 ≤ (Clustering.gmr_update s pred var).friction ∧
    (Clustering.gmr_update s pred var).friction ≤ 1 := by
  have hres : (Clustering.gmr_update s pred var).friction =
      if 1 ≤ pred then pred - var else pred := by
    simp only [Clustering.gmr_update, if_pos hs]
    split <;> rfl
  rw [hres]
  rcases hcase with h | ⟨h1, h2⟩
  · rw [if_neg (not_le.mpr h)]
    exact ⟨hp, le_of_lt h⟩
  · by_cases hge : (1 : ℚ) ≤ pred
    · rw [if_pos hge]
      constructor <;> linarith
    · rw [if_neg hge]
      have := not_le.mp hge
      constructor <;> linarith

/-- C6 witness: the amended range guarantee evaluated at a concrete
untouched region with prediction 1/2 and variance 1/9. -/
theorem C6_gmr_range_amended_witness :
    svC.friction = 0 ∧ (0 : ℚ) ≤ 1 / 2 ∧ ((1 : ℚ) / 2 < 1) ∧
    (0 ≤ (Clustering.gmr_update svC (1 / 2) (1 / 9)).friction ∧
      (Clustering.gmr_update svC (1 / 2) (1 / 9)).friction ≤ 1) :=
  ⟨rfl, by norm_num, by norm_num,
   C6_gmr_range_amended svC (1 / 2) (1 / 9) rfl (by norm_num)
     (Or.inl (by norm_num))⟩

/-- C8: calling cluster before any initial state is set fails with the
logic error for every threshold (the call is pure here, so the object is
returned unchanged alongside the error); calling it with an initial state
set but weights not yet initialized does not fail: it runs init_weights
first (which sets the initialization flag) and then the merge loop from
the initialized initial state. -/
theorem C8_cluster_guards (X : Extern) (c : Clustering) (threshold : ℚ) :
    (c.set_initial_state = false →
      c.cluster_threshold X threshold =
        Except.error
          "Cannot call cluster before setting an initial state with set_initialstate") ∧
    (c.set_initial_state = true → c.init_initial_weights = false →
      c.cluster_threshold X threshold =
        Except.ok ((c.init_weights X).cluster_from X
          (c.init_weights X).initial_state threshold) ∧
      (c.init_weights X).init_initial_weights = true) := by
  constructor
  · intro h
    simp [Clustering.cluster_threshold, h]
  · intro h1 h2
    refine ⟨?_, ?_⟩
    · simp [Clustering.cluster_threshold, h1, h2]
    · simp [Clustering.init_weights]

/-- C8 witness: the guard contract evaluated at the default-constructed
object (no initial state: the call errors) and at a concrete object with
an initial state but uninitialized weights (the call succeeds through
automatic weight initialization). -/
theorem C8_cluster_guards_witness :
    (Clustering.default_ctor.set_initial_state = false ∧
      Clustering.default_ctor.cluster_threshold X0 (1 / 2) =
        Except.error
          "Cannot call cluster before setting an initial state with set_initialstate") ∧
    (cOk.set_initial_state = true ∧ cOk.init_initial_weights = false ∧
      (cOk.cluster_threshold X0 (1 / 2) =
        Except.ok ((cOk.init_weights X0).cluster_from X0
          (cOk.init_weights X0).initial_state (1 / 2)) ∧
      (cOk.init_weights X0).init_initial_weights = true)) :=
  ⟨⟨rfl, (C8_cluster_guards X0 Clustering.default_ctor (1 / 2)).1 rfl⟩,
   ⟨rfl, rfl, (C8_cluster_guards X0 cOk (1 / 2)).2 rfl rfl⟩⟩

theorem fMul_none_right (a : Option ℚ) : fMul a none = none := by
  cases a <;> rfl

theorem fAdd_none_right (a : Option ℚ) : fAdd a none = none := by
  cases a <;> rfl

theorem fAdd_none_left (a : Option ℚ) : fAdd none a = none := by
  cases a <;> rfl

theorem fAbs_none : fAbs none = none := rfl

theorem fDiv_zero_right (a : Option ℚ) : fDiv a (some 0) = none := by
  cases a <;> simp [fDiv]

theorem fDiv_none_left (b : Option ℚ) : fDiv none b = none := by
  cases b <;> rfl

theorem fLe_none_right (a : Option ℚ) : fLe a none = false := by
  cases a <;> rfl

/-- C7 counterexample: the claim says the zero-norm degeneracy is handled
locally with a neutral distance and no non-finite value escapes; but with
equal centroids the division by the zero norm makes normals_diff return a
non-finite (NaN) value, which also escapes through the geometric
component dispatch of delta_c_g_h. -/
theorem C7_counterexample :
    Clustering.normals_diffF (fun q => q) ⟨0, 0, 1⟩ ⟨0, 0, 0⟩ ⟨0, 0, 1⟩
      ⟨0, 0, 0⟩ = none ∧
    Clustering.delta_gF (fun q => q) GeometricDistance.NORMALS_DIFF
      ⟨0, 0, 1⟩ ⟨0, 0, 0⟩ ⟨0, 0, 1⟩ ⟨0, 0, 0⟩ = none := by
  have hs : norm3 (fun q : ℚ => q) (sub3 ⟨0, 0, 0⟩ ⟨0, 0, 0⟩) = 0 := by
    simp [norm3, sumsq, dot3, sub3]
  have hnd : Clustering.normals_diffF (fun q : ℚ => q) ⟨0, 0, 1⟩ ⟨0, 0, 0⟩
      ⟨0, 0, 1⟩ ⟨0, 0, 0⟩ = none := by
    simp only [Clustering.normals_diffF, hs, fDiv_zero_right,
      fMul_none_right, fAdd_none_right, fAdd_none_left, fAbs_none,
      fDiv_none_left]
  exact ⟨hnd, hnd⟩

/-- C7 (amended): no exception is raised (every operation is total), but
the zero-norm degeneracy is not handled locally and no neutral distance
is returned: for every pair of regions with equal centroids, and any
square root sending 0 to 0 as the IEEE one does, normals_diff returns a
non-finite NaN value, the same value propagates out through the geometric
dispatch of delta_c_g_h under both geometric modes, and is_convex
resolves its NaN comparison to false. -/
theorem C7_nan_propagation (sq : ℚ → ℚ) (gt : GeometricDistance)
    (n1 n2 cc : V3) (h0 : sq 0 = 0) :
    Clustering.normals_diffF sq n1 cc n2 cc = none ∧
    Clustering.is_convexF sq n1 cc n2 cc = false ∧
    Clustering.delta_gF sq gt n1 cc n2 cc = none := by
  have hs : norm3 sq (sub3 cc cc) = 0 := by
    have hD : sub3 cc cc = ⟨0, 0, 0⟩ := by
      apply V3.ext <;> simp [sub3]
    rw [hD]
    simp only [norm3, sumsq, dot3]
    norm_num
    exact h0
  have hnd : Clustering.normals_diffF sq n1 cc n2 cc = none := by
    simp only [Clustering.normals_diffF, hs, fDiv_zero_right,
      fMul_none_right, fAdd_none_right, fAdd_none_left, fAbs_none,
      fDiv_none_left]
  have hcv : Clustering.is_convexF sq n1 cc n2 cc = false := by
    simp only [Clustering.is_convexF, hs, fDiv_zero_right,
      fMul_none_right, fAdd_none_right, fAdd_none_left, fLe_none_right]
  refine ⟨hnd, hcv, ?_⟩
  cases gt
  · exact hnd
  · simp only [Clustering.delta_gF, hcv, Bool.false_eq_true, if_false,
      hnd]

/-- C7 witness: the amended degeneracy behaviour evaluated at a concrete
pair with equal centroids under the CONVEX_NORMALS_DIFF mode. -/
theorem C7_nan_propagation_witness :
    (fun q : ℚ => q) 0 = 0 ∧
    (Clustering.normals_diffF (fun q => q) ⟨0, 0, 1⟩ ⟨1, 2, 3⟩ ⟨1, 0, 0⟩
       ⟨1, 2, 3⟩ = none ∧
     Clustering.is_convexF (fun q => q) ⟨0, 0, 1⟩ ⟨1, 2, 3⟩ ⟨1, 0, 0⟩
       ⟨1, 2, 3⟩ = false ∧
     Clustering.delta_gF (fun q => q) GeometricDistance.CONVEX_NORMALS_DIFF
       ⟨0, 0, 1⟩ ⟨1, 2, 3⟩ ⟨1, 0, 0⟩ ⟨1, 2, 3⟩ = none) :=
  ⟨rfl, C7_nan_propagation (fun q => q)
    GeometricDistance.CONVEX_NORMALS_DIFF ⟨0, 0, 1⟩ ⟨1, 0, 0⟩ ⟨1, 2, 3⟩
    rfl⟩

/-- C4: for every pair of regions, the geometric dissimilarity computed
by delta_c_g_h under CONVEX_NORMALS_DIFF equals exactly one half of the
one computed under NORMALS_DIFF whenever the convexity test holds, and
equals it whenever the test fails. -/
theorem C4_convex_halving (X : Extern) (c : Clustering)
    (s1 s2 : Supervoxel) :
    (Clustering.is_convex X.sq s1.normal.vec s1.centroid s2.normal.vec
        s2.centroid = true →
      ({ c with delta_g_type := GeometricDistance.CONVEX_NORMALS_DIFF
        }.delta_c_g_h X s1 s2).2.1 =
        (1 / 2) *
          ({ c with delta_g_type := GeometricDistance.NORMALS_DIFF
            }.delta_c_g_h X s1 s2).2.1) ∧
    (Clustering.is_convex X.sq s1.normal.vec s1.centroid s2.normal.vec
        s2.centroid = false →
      ({ c with delta_g_type := GeometricDistance.CONVEX_NORMALS_DIFF
        }.delta_c_g_h X s1 s2).2.1 =
        ({ c with delta_g_type := GeometricDistance.NORMALS_DIFF
          }.delta_c_g_h X s1 s2).2.1) := by
  constructor
  · intro h
    simp only [Clustering.delta_c_g_h, h, if_true]
    ring
  · intro h
    simp only [Clustering.delta_c_g_h, h, Bool.false_eq_true, if_false]

/-- C4 witness: the halving relation evaluated at the convex pair
(svA, svB) and the equality at the non-convex pair (svD, svE). -/
theorem C4_convex_halving_witness :
    (Clustering.is_convex X0.sq svA.normal.vec svA.centroid svB.normal.vec
        svB.centroid = true ∧
      ({ Clustering.default_ctor with
          delta_g_type := GeometricDistance.CONVEX_NORMALS_DIFF
        }.delta_c_g_h X0 svA svB).2.1 =
        (1 / 2) *
          ({ Clustering.default_ctor with
              delta_g_type := GeometricDistance.NORMALS_DIFF
            }.delta_c_g_h X0 svA svB).2.1) ∧
    (Clustering.is_convex X0.sq svD.normal.vec svD.centroid svE.normal.vec
        svE.centroid = false ∧
      ({ Clustering.default_ctor with
          delta_g_type := GeometricDistance.CONVEX_NORMALS_DIFF
        }.delta_c_g_h X0 svD svE).2.1 =
        ({ Clustering.default_ctor with
            delta_g_type := GeometricDistance.NORMALS_DIFF
          }.delta_c_g_h X0 svD svE).2.1) := by
  have h1 : Clustering.is_convex X0.sq svA.normal.vec svA.centroid
      svB.normal.vec svB.centroid = true := by
    simp [Clustering.is_convex, X0, svA, svB, sub3, scale3, norm3, sumsq,
      dot3]
  have h2 : Clustering.is_convex X0.sq svD.normal.vec svD.centroid
      svE.normal.vec svE.centroid = false := by
    simp [Clustering.is_convex, X0, svD, svE, sub3, scale3, norm3, sumsq,
      dot3]
  exact ⟨⟨h1, (C4_convex_halving X0 Clustering.default_ctor svA svB).1 h1⟩,
    ⟨h2, (C4_convex_halving X0 Clustering.default_ctor svD svE).2 h2⟩⟩

/-- C5: the unified edge distance is symmetric in its two region
arguments for every configuration of the distance selectors and the
merging mode, given that the two external color kernels are symmetric
(true of CIEDE2000 and the Euclidean RGB distance, which are outside
src); in particular normals_diff and the convexity test are themselves
invariant under swapping the two regions. -/
theorem C5_delta_symmetry (X : Extern) (c : Clustering)
    (s1 s2 : Supervoxel)
    (hlab : ∀ a b, X.color.lab_ciede00 a b = X.color.lab_ciede00 b a)
    (hrgb : ∀ a b, X.color.rgb_eucl a b = X.color.rgb_eucl b a) :
    Clustering.normals_diff X.sq s2.normal.vec s2.centroid s1.normal.vec
        s1.centroid =
      Clustering.normals_diff X.sq s1.normal.vec s1.centroid
        s2.normal.vec s2.centroid ∧
    Clustering.is_convex X.sq s2.normal.vec s2.centroid s1.normal.vec
        s1.centroid =
      Clustering.is_convex X.sq s1.normal.vec s1.centroid s2.normal.vec
        s2.centroid ∧
    c.delta X s2 s1 = c.delta X s1 s2 :=
  ⟨normals_diff_swap _ _ _ _ _, is_convex_swap _ _ _ _ _,
   delta_swap_helper X c s1 s2 hlab hrgb⟩

/-- C5 witness: symmetry of the unified distance evaluated at a concrete
pair of regions under the concrete symmetric color kernels of X0. -/
theorem C5_delta_symmetry_witness :
    Clustering.delta X0 cW svB svA = Clustering.delta X0 cW svA svB :=
  (C5_delta_symmetry X0 cW svA svB (fun a b => abs_sub_comm a.x b.x)
    (fun a b => abs_sub_comm a.r b.r)).2.2

/-- C1: after merging the head edge (u,v) of the weighted graph (with
u < v, both labels present, well-formed remaining edges as produced by
initialization and previous merges, and input centroids equal to the
means of their voxels): the new region installed under u holds exactly
the voxels of both inputs, its centroid is the size-weighted mean of the
two input centroids (equivalently the arithmetic mean of all member
positions), and every edge of the rewritten graph has both endpoints
present in the new region table with no reference to the retired label
v. -/
theorem C1_merge_invariants (X : Extern) (c : Clustering) (u v : ℕ)
    (w0 : ℚ) (tl : List WEdge) (su sv : Supervoxel)
    (hwm : c.state.weight_map = (w0, (u, v)) :: tl)
    (hu : segLookup c.state.segments u = some su)
    (hv : segLookup c.state.segments v = some sv)
    (huv : u < v)
    (hn1 : su.voxels.length ≠ 0) (hn2 : sv.voxels.length ≠ 0)
    (hc1 : su.centroid = centroidOf su.voxels)
    (hc2 : sv.centroid = centroidOf sv.voxels)
    (htl : ∀ e ∈ tl, (segLookup c.state.segments e.2.1).isSome = true ∧
      (segLookup c.state.segments e.2.2).isSome = true ∧
      e.2.1 < e.2.2 ∧ e.2 ≠ (u, v)) :
    ((segLookup (c.merge X (u, v)).state.segments u).getD
        default).voxels.length = su.voxels.length + sv.voxels.length ∧
    ((segLookup (c.merge X (u, v)).state.segments u).getD
        default).centroid =
      ⟨((su.voxels.length : ℚ) * su.centroid.x +
          (sv.voxels.length : ℚ) * sv.centroid.x) /
         ((su.voxels.length : ℚ) + (sv.voxels.length : ℚ)),
       ((su.voxels.length : ℚ) * su.centroid.y +
          (sv.voxels.length : ℚ) * sv.centroid.y) /
         ((su.voxels.length : ℚ) + (sv.voxels.length : ℚ)),
       ((su.voxels.length : ℚ) * su.centroid.z +
          (sv.voxels.length : ℚ) * sv.centroid.z) /
         ((su.voxels.length : ℚ) + (sv.voxels.length : ℚ))⟩ ∧
    ∀ e ∈ (c.merge X (u, v)).state.weight_map,
      (segLookup (c.merge X (u, v)).state.segments e.2.1).isSome = true ∧
      (segLookup (c.merge X (u, v)).state.segments e.2.2).isSome = true ∧
      e.2.1 ≠ v ∧ e.2.2 ≠ v := by
  have hlk := merge_lookup_new X c u v (Nat.ne_of_lt huv)
  rw [hu, hv] at hlk
  have hmerged : (segLookup (c.merge X (u, v)).state.segments u).getD
      default = Clustering.merged_supervoxel X su sv := by
    rw [hlk]
    rfl
  refine ⟨?_, ?_, ?_⟩
  · rw [hmerged]
    show (su.voxels ++ sv.voxels).length = _
    exact List.length_append su.voxels sv.voxels
  · rw [hmerged]
    show centroidOf (su.voxels ++ sv.voxels) = _
    rw [centroidOf_append su.voxels sv.voxels hn1 hn2, ← hc1, ← hc2]
  · obtain ⟨dlt, hshape⟩ := merge_weight_map_shape X c (u, v)
    intro e he
    rw [hshape, hwm] at he
    simp only [List.tail_cons] at he
    have hGu : (segLookup (c.merge X (u, v)).state.segments u).isSome
        = true ∧ u ≠ v := by
      refine ⟨?_, Nat.ne_of_lt huv⟩
      rw [hlk]
      rfl
    have hOld : ∀ x, (segLookup c.state.segments x).isSome = true →
        x ≠ u → x ≠ v →
        (segLookup (c.merge X (u, v)).state.segments x).isSome = true ∧
          x ≠ v := by
      intro x hx hxu hxv
      rw [merge_lookup_other X c u v x hxu hxv]
      exact ⟨hx, hxv⟩
    have hgood := foldl_mergeStep_endpoints dlt u v
      (fun x => (segLookup c.state.segments x).isSome = true)
      (fun x => (segLookup (c.merge X (u, v)).state.segments x).isSome
        = true ∧ x ≠ v)
      hGu hOld huv tl htl [] (fun e0 h0 => absurd h0 (List.not_mem_nil e0))
      e he
    obtain ⟨⟨ha1, ha2⟩, hb1, hb2⟩ := hgood
    exact ⟨ha1, hb1, ha2, hb2⟩

/-- C1 witness: the merge invariants evaluated on the concrete state cW,
merging the head edge (1,2) of its weighted graph. -/
theorem C1_merge_invariants_witness :
    cW.state.weight_map = (0, (1, 2)) :: [((1 : ℚ), (2, 3))] ∧
    segLookup cW.state.segments 1 = some svA ∧
    segLookup cW.state.segments 2 = some svB ∧
    (1 : ℕ) < 2 ∧
    ((segLookup (cW.merge X0 (1, 2)).state.segments 1).getD
        default).voxels.length = svA.voxels.length + svB.voxels.length :=
  ⟨rfl, rfl, rfl, by decide,
   (C1_merge_invariants X0 cW 1 2 0 [((1 : ℚ), (2, 3))] svA svB rfl rfl
      rfl (by decide) (by decide) (by decide)
      (by apply V3.ext <;> norm_num [svA, centroidOf])
      (by apply V3.ext <;> norm_num [svB, centroidOf])
      (by decide)).1⟩

/-- C3: for every merge of two present regions u and v, the merged
region's friction equals the size-weighted average
(card Fu * fu + card Fv * fv) / (card Fu + card Fv) when the concatenated
friction-sample sequence is non-empty, and the plain average
(fu + fv) / 2 otherwise. -/
theorem C3_merge_friction (X : Extern) (c : Clustering) (u v : ℕ)
    (su sv : Supervoxel)
    (hu : segLookup c.state.segments u = some su)
    (hv : segLookup c.state.segments v = some sv)
    (huv : u ≠ v) :
    ((segLookup (c.merge X (u, v)).state.segments u).getD
        default).friction =
      if (su.frictions ++ sv.frictions).length ≠ 0 then
        ((su.frictions.length : ℚ) * su.friction +
         (sv.frictions.length : ℚ) * sv.friction) /
          ((su.frictions.length : ℚ) + (sv.frictions.length : ℚ))
      else (su.friction + sv.friction) / 2 := by
  have hlk := merge_lookup_new X c u v huv
  rw [hu, hv] at hlk
  have hmerged : (segLookup (c.merge X (u, v)).state.segments u).getD
      default = Clustering.merged_supervoxel X su sv := by
    rw [hlk]
    rfl
  rw [hmerged]
  show (if (su.frictions ++ sv.frictions).length ≠ 0 then
      ((su.frictions.length : ℚ) * su.friction +
       (sv.frictions.length : ℚ) * sv.friction) /
        (((su.frictions ++ sv.frictions).length : ℚ))
    else (su.friction + sv.friction) / 2) = _
  by_cases h : (su.frictions ++ sv.frictions).length ≠ 0
  · rw [if_pos h, if_pos h]
    congr 1
    rw [List.length_append]
    push_cast
    ring
  · rw [if_neg h, if_neg h]

/-- C3 witness: the merged friction evaluated on the concrete state cW
(region 1 has one friction sample with scalar 1/2, region 2 has none, so
the weighted average gives 1/2). -/
theorem C3_merge_friction_witness :
    segLookup cW.state.segments 1 = some svA ∧
    segLookup cW.state.segments 2 = some svB ∧
    (1 : ℕ) ≠ 2 ∧
    ((segLookup (cW.merge X0 (1, 2)).state.segments 1).getD
        default).friction =
      if (svA.frictions ++ svB.frictions).length ≠ 0 then
        ((svA.frictions.length : ℚ) * svA.friction +
         (svB.frictions.length : ℚ) * svB.friction) /
          ((svA.frictions.length : ℚ) + (svB.frictions.length : ℚ))
      else (svA.friction + svB.friction) / 2 :=
  ⟨rfl, rfl, by decide,
   C3_merge_friction X0 cW 1 2 svA svB rfl rfl (by decide)⟩
